import Mathlib

/-!
Verification of the react-pdf Document orchestration core: the EventBus,
the page/editor-layer registration barrier, the source-resolution pipeline,
the document-load settlement handling, and the save/download coordinators.
Definitions are shallow embeddings of the TypeScript source.
-/

namespace ReactPdf

/-! ## EventBus (shared/eventBus.js)

A listener record as stored in `#listeners[eventName]`: the listener
function (modelled by a numeric identity, since `_off` compares with
`===`), and the `external` and `once` flags. -/

structure Listener where
  id : Nat
  external : Bool
  once : Bool
deriving DecidableEq, Repr

/-- The bus state: `#listeners = Object.create(null)`, a map from event
name to the list of listener records (absent key = empty list). -/
structure EventBus where
  listeners : String → List Listener

/-- Observable actions performed by `dispatch`: deregistering a `once`
listener, and invoking a listener (identified by its id). -/
inductive BusAction where
  | deregister (id : Nat)
  | invoke (id : Nat)
deriving DecidableEq, Repr

/-- `EventBus._on`: push a record onto the list for the event name. -/
def busOn (name : String) (r : Listener) (bus : EventBus) : EventBus :=
  ⟨fun n => if n = name then bus.listeners n ++ [r] else bus.listeners n⟩

/-- The loop body of `EventBus._off`: remove the first record whose
listener is `===` to the given one; leave the rest untouched. -/
def off1 (id : Nat) : List Listener → List Listener
  | [] => []
  | r :: rest => if r.id = id then rest else r :: off1 id rest

/-- `EventBus._off`: remove the first matching record for the event name
(no-op when the event name has no listener list). -/
def busOff (name : String) (id : Nat) (bus : EventBus) : EventBus :=
  ⟨fun n => if n = name then off1 id (bus.listeners n) else bus.listeners n⟩

/-- One iteration of the `dispatch` loop over the snapshot
(`eventListeners.slice(0)`): a `once` record is deregistered first; an
`external` record is deferred into the pending list; otherwise the
listener is invoked immediately.  The accumulator is
(bus state, pending external ids, trace so far). -/
def dispatchStep (name : String) (acc : EventBus × List Nat × List BusAction)
    (r : Listener) : EventBus × List Nat × List BusAction :=
  let bus := if r.once then busOff name r.id acc.1 else acc.1
  let trace := if r.once then acc.2.2 ++ [BusAction.deregister r.id] else acc.2.2
  if r.external then (bus, acc.2.1 ++ [r.id], trace)
  else (bus, acc.2.1, trace ++ [BusAction.invoke r.id])

/-- `EventBus.dispatch`: early return when the listener list is empty;
otherwise iterate over a snapshot of the list, then invoke the deferred
external listeners, in order, after the loop.  Returns the new bus state
and the trace of actions. -/
def dispatch (name : String) (bus : EventBus) : EventBus × List BusAction :=
  let snapshot := bus.listeners name
  if snapshot.isEmpty then (bus, [])
  else
    let res := snapshot.foldl (dispatchStep name) (bus, [], [])
    (res.1, res.2.2 ++ res.2.1.map BusAction.invoke)

/-- Iterated dispatch of the same event name, concatenating the traces. -/
def dispatchN (name : String) : Nat → EventBus → EventBus × List BusAction
  | 0, bus => (bus, [])
  | n + 1, bus =>
    let r1 := dispatch name bus
    let r2 := dispatchN name n r1.1
    (r2.1, r1.2 ++ r2.2)

/-! ### Characterization of the dispatch loop -/

/-- The trace produced by the snapshot loop itself (deferred external
invocations excluded). -/
def loopTrace : List Listener → List BusAction
  | [] => []
  | r :: rest =>
    ((if r.once then [BusAction.deregister r.id] else [])
      ++ (if r.external then [] else [BusAction.invoke r.id])) ++ loopTrace rest

/-- Ids of the external listeners of a snapshot, in order. -/
def extIds (l : List Listener) : List Nat :=
  (l.filter (fun r => r.external)).map (fun r => r.id)

/-- Ids of the non-external listeners of a snapshot, in order. -/
def intIds (l : List Listener) : List Nat :=
  (l.filter (fun r => !r.external)).map (fun r => r.id)

/-- The bus-state effect of the loop: deregister every `once` record of
the snapshot, in order. -/
def foldOffs (name : String) (snap : List Listener) (bus : EventBus) : EventBus :=
  snap.foldl (fun b r => if r.once then busOff name r.id b else b) bus

theorem foldl_dispatchStep (name : String) :
    ∀ (snap : List Listener) (bus : EventBus) (ext : List Nat) (tr : List BusAction),
      snap.foldl (dispatchStep name) (bus, ext, tr)
        = (foldOffs name snap bus, ext ++ extIds snap, tr ++ loopTrace snap) := by
  intro snap
  induction snap with
  | nil => intro bus ext tr; simp [foldOffs, extIds, loopTrace]
  | cons r rest ih =>
    intro bus ext tr
    simp only [List.foldl_cons, dispatchStep]
    by_cases hx : r.external <;> by_cases ho : r.once <;>
      simp [hx, ho, ih, foldOffs, extIds, loopTrace, List.filter_cons]

theorem dispatch_eq (name : String) (bus : EventBus) :
    dispatch name bus
      = (foldOffs name (bus.listeners name) bus,
          loopTrace (bus.listeners name)
            ++ (extIds (bus.listeners name)).map BusAction.invoke) := by
  unfold dispatch
  by_cases h : (bus.listeners name).isEmpty
  · rw [List.isEmpty_iff] at h
    simp [h, foldOffs, extIds, loopTrace]
  · simp [h, foldl_dispatchStep]

/-- The ids invoked in a trace, in order. -/
def invokes (tr : List BusAction) : List Nat :=
  tr.filterMap (fun a => match a with | BusAction.invoke i => some i | _ => none)

theorem invokes_append (t1 t2 : List BusAction) :
    invokes (t1 ++ t2) = invokes t1 ++ invokes t2 := by
  simp [invokes]

theorem invokes_loopTrace : ∀ snap : List Listener,
    invokes (loopTrace snap) = intIds snap
  | [] => by simp [loopTrace, intIds, invokes]
  | r :: rest => by
    rw [loopTrace, invokes_append, invokes_loopTrace rest]
    by_cases hx : r.external <;> by_cases ho : r.once <;>
      simp [intIds, invokes, List.filter_cons, hx, ho]

theorem invokes_map_invoke (ids : List Nat) :
    invokes (ids.map BusAction.invoke) = ids := by
  induction ids with
  | nil => simp [invokes]
  | cons i rest ih => simp [invokes] at ih ⊢; exact ih

/-- A concrete three-listener bus for the ordering scenario: L1 internal,
L2 external, L3 internal, subscribed in that order. -/
def bus3 : EventBus :=
  ⟨fun n => if n = "e" then
      [⟨1, false, false⟩, ⟨2, true, false⟩, ⟨3, false, false⟩] else []⟩

/-! ### Counting apparatus for the once-listener claim -/

/-- Number of records for listener `id` in a listener list. -/
def countL (id : Nat) (l : List Listener) : Nat :=
  (l.filter (fun r => r.id = id)).length

/-- Number of invocations of listener `id` in a trace. -/
def countInv (id : Nat) (tr : List BusAction) : Nat :=
  (tr.filter (fun a => a = BusAction.invoke id)).length

theorem countInv_append (id : Nat) (t1 t2 : List BusAction) :
    countInv id (t1 ++ t2) = countInv id t1 + countInv id t2 := by
  simp [countInv]

theorem countL_filter_split (id : Nat) (p : Listener → Bool) :
    ∀ l : List Listener,
      countL id (l.filter p) + countL id (l.filter (fun r => !p r)) = countL id l
  | [] => by simp [countL]
  | r :: rest => by
    have ih := countL_filter_split id p rest
    by_cases hp : p r <;> by_cases hid : r.id = id <;>
      simp [countL, List.filter_cons, hp, hid] at ih ⊢ <;> omega

theorem countInv_loopTrace (id : Nat) : ∀ snap : List Listener,
    countInv id (loopTrace snap) = countL id (snap.filter (fun r => !r.external))
  | [] => by simp [loopTrace, countInv, countL]
  | r :: rest => by
    rw [loopTrace, countInv_append, countInv_loopTrace id rest]
    by_cases hx : r.external <;> by_cases ho : r.once <;> by_cases hid : r.id = id <;>
      simp [countInv, countL, List.filter_cons, hx, ho, hid] <;> omega

theorem countInv_extInvokes (id : Nat) : ∀ snap : List Listener,
    countInv id ((extIds snap).map BusAction.invoke)
      = countL id (snap.filter (fun r => r.external))
  | [] => by simp [extIds, countInv, countL]
  | r :: rest => by
    have ih := countInv_extInvokes id rest
    by_cases hx : r.external <;> by_cases hid : r.id = id <;>
      simp [extIds, countInv, countL, List.filter_cons, hx, hid] at ih ⊢ <;>
      omega

/-- Each snapshot record is invoked exactly once by a dispatch: the number
of invocations of a given listener equals its number of records. -/
theorem countInv_dispatchTrace (id : Nat) (snap : List Listener) :
    countInv id (loopTrace snap ++ (extIds snap).map BusAction.invoke)
      = countL id snap := by
  rw [countInv_append, countInv_loopTrace, countInv_extInvokes]
  rw [Nat.add_comm]
  exact countL_filter_split id (fun r => r.external) snap

/-! ### Effect of the loop on the stored listener list -/

theorem off1_sublist (id : Nat) : ∀ l : List Listener, List.Sublist (off1 id l) l
  | [] => by simp [off1]
  | r :: rest => by
    rw [off1]
    by_cases h : r.id = id
    · rw [if_pos h]
      exact List.sublist_cons_self r rest
    · rw [if_neg h]
      exact List.Sublist.cons₂ r (off1_sublist id rest)

theorem countL_sublist_le (id : Nat) {l1 l2 : List Listener}
    (h : List.Sublist l1 l2) : countL id l1 ≤ countL id l2 :=
  (h.filter _).length_le

theorem countL_off1_self (id : Nat) : ∀ l : List Listener,
    countL id (off1 id l) = countL id l - 1
  | [] => by simp [off1, countL]
  | r :: rest => by
    have ih := countL_off1_self id rest
    rw [off1]
    by_cases h : r.id = id
    · rw [if_pos h]
      simp [countL, List.filter_cons, h]
    · rw [if_neg h]
      simp only [countL, List.filter_cons, h] at ih ⊢
      simpa using ih

theorem countL_off1_ne (id id2 : Nat) (hne : id ≠ id2) : ∀ l : List Listener,
    countL id (off1 id2 l) = countL id l
  | [] => by simp [off1]
  | r :: rest => by
    have ih := countL_off1_ne id id2 hne rest
    rw [off1]
    by_cases h : r.id = id2
    · have hrid : ¬(r.id = id) := by rw [h]; exact fun hc => hne hc.symm
      rw [if_pos h]
      simp [countL, List.filter_cons, hrid]
    · rw [if_neg h]
      simp only [countL, List.filter_cons] at ih ⊢
      by_cases h2 : r.id = id <;> simp [h2, ih]

/-- Reading the listener list for `name` after the loop has processed a
snapshot: the `once` records of the snapshot have been removed one at a
time, first match each. -/
theorem foldOffs_cons (name : String) (r : Listener) (rest : List Listener)
    (bus : EventBus) :
    foldOffs name (r :: rest) bus
      = foldOffs name rest (if r.once then busOff name r.id bus else bus) := rfl

theorem foldOffs_listeners (name : String) : ∀ (snap : List Listener) (bus : EventBus),
    (foldOffs name snap bus).listeners name
      = (snap.filter (fun r => r.once)).foldl (fun acc r => off1 r.id acc)
          (bus.listeners name)
  | [], _ => rfl
  | r :: rest, bus => by
    rw [foldOffs_cons, List.filter_cons]
    by_cases ho : r.once
    · rw [if_pos ho, if_pos ho, foldOffs_listeners name rest (busOff name r.id bus),
        List.foldl_cons]
      simp [busOff]
    · rw [if_neg ho, if_neg ho]
      exact foldOffs_listeners name rest bus

theorem foldl_off_sublist : ∀ (rs : List Listener) (l : List Listener),
    List.Sublist (rs.foldl (fun acc r => off1 r.id acc) l) l
  | [], l => List.Sublist.refl l
  | r :: rest, l => by
    rw [List.foldl_cons]
    exact (foldl_off_sublist rest (off1 r.id l)).trans (off1_sublist r.id l)

theorem foldl_off_mem_zero (id : Nat) : ∀ (rs : List Listener) (l : List Listener),
    countL id l ≤ 1 → (∃ r ∈ rs, r.id = id) →
    countL id (rs.foldl (fun acc r => off1 r.id acc) l) = 0
  | [], _, _, hmem => by simp at hmem
  | r :: rest, l, hle, hmem => by
    rw [List.foldl_cons]
    by_cases h : r.id = id
    · have h0 : countL id (off1 r.id l) = 0 := by
        rw [h, countL_off1_self]; omega
      have := countL_sublist_le id (foldl_off_sublist rest (off1 r.id l))
      omega
    · obtain ⟨r2, hr2, hid2⟩ := hmem
      rcases List.mem_cons.mp hr2 with heq | hmem2
      · exact absurd (heq ▸ hid2) h
      · have hne : id ≠ r.id := fun hc => h hc.symm
        refine foldl_off_mem_zero id rest (off1 r.id l) ?_ ⟨r2, hmem2, hid2⟩
        rw [countL_off1_ne id r.id hne]; exact hle

theorem loopTrace_append : ∀ l1 l2 : List Listener,
    loopTrace (l1 ++ l2) = loopTrace l1 ++ loopTrace l2
  | [], l2 => by simp [loopTrace]
  | r :: rest, l2 => by
    rw [List.cons_append, loopTrace, loopTrace, loopTrace_append rest l2]
    simp [List.append_assoc]

/-- One dispatch under the once-listener hypotheses: the listener is
invoked as many times as it has records (hence at most once), and all its
records are removed from the stored list. -/
theorem dispatch_once_count (name : String) (id0 : Nat) (bus : EventBus)
    (honce : ∀ r ∈ bus.listeners name, r.id = id0 → r.once = true)
    (hle : countL id0 (bus.listeners name) ≤ 1) :
    countInv id0 (dispatch name bus).2 = countL id0 (bus.listeners name)
    ∧ countL id0 ((dispatch name bus).1.listeners name) = 0
    ∧ (∀ r ∈ (dispatch name bus).1.listeners name, r.id = id0 → r.once = true) := by
  rw [dispatch_eq]
  refine ⟨countInv_dispatchTrace id0 (bus.listeners name), ?_, ?_⟩
  · rw [foldOffs_listeners]
    rcases Nat.lt_or_ge (countL id0 (bus.listeners name)) 1 with h0 | h1
    · have hz : countL id0 (bus.listeners name) = 0 := by omega
      have := countL_sublist_le id0
        (foldl_off_sublist ((bus.listeners name).filter (fun r => r.once))
          (bus.listeners name))
      omega
    · have hne : (bus.listeners name).filter (fun r => r.id = id0) ≠ [] := by
        intro hempty
        simp only [countL, hempty, List.length_nil] at h1
        omega
      obtain ⟨r0, hr0⟩ := List.exists_mem_of_ne_nil _ hne
      have hr0l : r0 ∈ bus.listeners name := List.mem_of_mem_filter hr0
      have hr0id : r0.id = id0 := by
        have := List.of_mem_filter hr0
        simpa using this
      have hr0once : r0.once = true := honce r0 hr0l hr0id
      exact foldl_off_mem_zero id0 _ _ hle
        ⟨r0, List.mem_filter.mpr ⟨hr0l, by simp [hr0once]⟩, hr0id⟩
  · intro r hr hid
    rw [foldOffs_listeners] at hr
    exact honce r
      ((foldl_off_sublist _ (bus.listeners name)).subset hr) hid

theorem dispatchN_zero (name : String) (id0 : Nat) : ∀ (n : Nat) (bus : EventBus),
    countL id0 (bus.listeners name) = 0 →
    countInv id0 (dispatchN name n bus).2 = 0
    ∧ countL id0 ((dispatchN name n bus).1.listeners name) = 0
  | 0, bus, hz => by simp [dispatchN, countInv, hz]
  | n + 1, bus, hz => by
    have h1 : countInv id0 (dispatch name bus).2 = 0 := by
      rw [dispatch_eq]
      rw [countInv_dispatchTrace]
      exact hz
    have h2 : countL id0 ((dispatch name bus).1.listeners name) = 0 := by
      rw [dispatch_eq]
      rw [foldOffs_listeners]
      have := countL_sublist_le id0
        (foldl_off_sublist ((bus.listeners name).filter (fun r => r.once))
          (bus.listeners name))
      omega
    have ih := dispatchN_zero name id0 n (dispatch name bus).1 h2
    rw [dispatchN]
    simp only [countInv_append]
    exact ⟨by omega, ih.2⟩

/-- Claim C8: a listener subscribed with the `once` flag is deregistered
before it is invoked (the deregister action precedes the invoke action in
the dispatch trace), and across any number of dispatches of the same
event name it is invoked at most once. -/
theorem once_listener_discipline (bus : EventBus) (name : String) (id0 : Nat)
    (honce : ∀ r ∈ bus.listeners name, r.id = id0 → r.once = true)
    (hle : countL id0 (bus.listeners name) ≤ 1) :
    (∀ r ∈ bus.listeners name, r.id = id0 →
        List.Sublist [BusAction.deregister id0, BusAction.invoke id0]
          (dispatch name bus).2)
    ∧ (∀ n : Nat, countInv id0 (dispatchN name n bus).2 ≤ 1) := by
  constructor
  · intro r0 hr0 hid
    have hr0once : r0.once = true := honce r0 hr0 hid
    obtain ⟨l1, l2, hdec⟩ := List.append_of_mem hr0
    rw [dispatch_eq]
    by_cases hx : r0.external
    · have hd : BusAction.deregister id0 ∈ loopTrace (bus.listeners name) := by
        rw [hdec, loopTrace_append, loopTrace]
        simp [hr0once, hid]
      have hi : BusAction.invoke id0 ∈ (extIds (bus.listeners name)).map BusAction.invoke := by
        have : id0 ∈ extIds (bus.listeners name) := by
          rw [← hid]
          exact List.mem_map.mpr ⟨r0, List.mem_filter.mpr ⟨hr0, by simp [hx]⟩, rfl⟩
        exact List.mem_map.mpr ⟨id0, this, rfl⟩
      exact List.Sublist.append (List.singleton_sublist.mpr hd)
        (List.singleton_sublist.mpr hi)
    · have hseg : List.Sublist [BusAction.deregister id0, BusAction.invoke id0]
          (loopTrace (bus.listeners name)) := by
        rw [hdec, loopTrace_append, loopTrace]
        simp only [hr0once, if_pos rfl, hx, Bool.false_eq_true, if_neg, hid]
        refine List.Sublist.trans ?_ (List.sublist_append_right (loopTrace l1) _)
        refine List.Sublist.trans ?_ (List.sublist_append_left _ (loopTrace l2))
        simp [hx]
      exact hseg.trans (List.sublist_append_left _ _)
  · intro n
    match n with
    | 0 => simp [dispatchN, countInv]
    | n + 1 =>
      obtain ⟨hinv, hzero, _⟩ := dispatch_once_count name id0 bus honce hle
      have hrest := dispatchN_zero name id0 n (dispatch name bus).1 hzero
      rw [dispatchN]
      simp only [countInv_append]
      omega

/-- A concrete bus with a single `once` listener (id 7) for event "e". -/
def busOnce : EventBus :=
  ⟨fun n => if n = "e" then [⟨7, true, true⟩] else []⟩

theorem once_listener_discipline_witness :
    List.Sublist [BusAction.deregister 7, BusAction.invoke 7] (dispatch "e" busOnce).2
    ∧ countInv 7 (dispatchN "e" 3 busOnce).2 ≤ 1 :=
  ⟨(once_listener_discipline busOnce "e" 7 (by decide) (by decide)).1
      ⟨7, true, true⟩ (by decide) rfl,
    (once_listener_discipline busOnce "e" 7 (by decide) (by decide)).2 3⟩

/-- Claim C1: a dispatch invokes all non-external listeners for the event
first, in subscription order, then all external listeners, in subscription
order; in particular, for L1 (internal), L2 (external), L3 (internal)
subscribed in that order, the invocation order is L1, L3, L2. -/
theorem dispatch_internal_then_external :
    (∀ (bus : EventBus) (name : String),
      invokes (dispatch name bus).2
        = intIds (bus.listeners name) ++ extIds (bus.listeners name))
    ∧ invokes (dispatch "e" bus3).2 = [1, 3, 2] := by
  have hgen : ∀ (bus : EventBus) (name : String),
      invokes (dispatch name bus).2
        = intIds (bus.listeners name) ++ extIds (bus.listeners name) := by
    intro bus name
    rw [dispatch_eq]
    dsimp only
    rw [invokes_append, invokes_loopTrace, invokes_map_invoke]
  refine ⟨hgen, ?_⟩
  rw [hgen bus3 "e"]
  simp [bus3, intIds, extIds]

/-! ## Page registration barrier (Document.tsx)

`pages.current` and `annotationEditorLayers.current` are JS arrays,
allocated as `new Array(pdf.numPages)` (all slots holes) on load success;
`registerPage` and `registerAnnotationEditorLayer` write `arr[i] = ref`.
Holes/absent entries are `none`; a mounted surface ref is `some id`
(DOM refs and layer objects are always truthy). -/

structure DocState where
  pages : List (Option Nat)
  annotationEditorLayers : List (Option Nat)
  annotationEditorUiManager : Bool
  canLoadAnnotations : Bool
deriving DecidableEq, Repr

/-- JS array element assignment `arr[i] = v`: in-range writes replace the
slot; an out-of-range write extends the array with holes up to index `i`. -/
def jsArraySet (l : List (Option Nat)) (i : Nat) (v : Option Nat) :
    List (Option Nat) :=
  if i < l.length then l.set i v
  else l ++ List.replicate (i - l.length) none ++ [v]

/-- `registerPage(pageIndex, ref)`:
`pages.current[pageIndex] = ref`. -/
def registerPage (pageIndex : Nat) (ref : Nat) (s : DocState) : DocState :=
  { s with pages := jsArraySet s.pages pageIndex (some ref) }

/-- `registerAnnotationEditorLayer(pageIndex, ref)`:
`annotationEditorLayers.current[pageIndex] = ref`, then recompute
`canLoadAnnotations` as
`annotationEditorUiManager && pages.current.length > 0 &&
pages.current.length == annotationEditorLayers.current.filter(Boolean).length`. -/
def registerAnnotationEditorLayer (pageIndex : Nat) (ref : Nat) (s : DocState) :
    DocState :=
  let layers := jsArraySet s.annotationEditorLayers pageIndex (some ref)
  { s with
    annotationEditorLayers := layers
    canLoadAnnotations :=
      s.annotationEditorUiManager
        && decide (0 < s.pages.length)
        && decide (s.pages.length = (layers.filter Option.isSome).length) }

/-- The registries as (re)allocated by `onLoadSuccess` for an `N`-page
document: both `new Array(N)`, manager resolution state `m`,
`canLoadAnnotations` initially false. -/
def initDocState (N : Nat) (m : Bool) : DocState :=
  { pages := List.replicate N none
    annotationEditorLayers := List.replicate N none
    annotationEditorUiManager := m
    canLoadAnnotations := false }

theorem jsArraySet_inrange (l : List (Option Nat)) (i : Nat) (v : Option Nat)
    (h : i < l.length) : jsArraySet l i v = l.set i v := by
  simp [jsArraySet, h]

theorem filter_isSome_length_eq_iff : ∀ l : List (Option Nat),
    (l.filter Option.isSome).length = l.length ↔ ∀ x ∈ l, x.isSome
  | [] => by simp
  | x :: rest => by
    have hle := List.length_filter_le Option.isSome rest
    by_cases hx : x.isSome
    · simp [List.filter_cons, hx, filter_isSome_length_eq_iff rest]
    · simp only [List.filter_cons, hx, Bool.false_eq_true, if_false, List.length_cons]
      constructor
      · intro h
        omega
      · intro h
        exact absurd (h x (List.mem_cons_self x rest)) (by simp [hx])

/-- Claim C2: with the editing manager resolved and page count `N ≥ 1`,
the readiness flag recomputed by `registerAnnotationEditorLayer` equals
the formula (manager resolved) AND (page registry length > 0) AND
(non-absent editor-surface count equals page registry length), and it is
true exactly when every slot of the editor-surface registry is filled —
false while any is absent, true on the call filling the last absent slot. -/
theorem registerAnnotationEditorLayer_readiness (s : DocState) (N i ref : Nat)
    (hp : s.pages.length = N) (hl : s.annotationEditorLayers.length = N)
    (hN : 1 ≤ N) (hi : i < N) (hm : s.annotationEditorUiManager = true) :
    (registerAnnotationEditorLayer i ref s).canLoadAnnotations
      = (s.annotationEditorUiManager && decide (0 < s.pages.length)
          && decide (s.pages.length
              = (((registerAnnotationEditorLayer i ref s).annotationEditorLayers).filter
                  Option.isSome).length))
    ∧ ((registerAnnotationEditorLayer i ref s).canLoadAnnotations = true
        ↔ ∀ x ∈ (registerAnnotationEditorLayer i ref s).annotationEditorLayers,
            x.isSome) := by
  have hset : jsArraySet s.annotationEditorLayers i (some ref)
      = s.annotationEditorLayers.set i (some ref) :=
    jsArraySet_inrange _ _ _ (by omega)
  have hlen : (s.annotationEditorLayers.set i (some ref)).length = N := by
    rw [List.length_set]; exact hl
  constructor
  · rfl
  · simp only [registerAnnotationEditorLayer, hset, hm, hp, Bool.true_and]
    rw [show (decide (0 < N) && decide (N
          = ((s.annotationEditorLayers.set i (some ref)).filter Option.isSome).length))
        = true ↔ (0 < N ∧ N
          = ((s.annotationEditorLayers.set i (some ref)).filter Option.isSome).length)
      from by simp]
    rw [← hlen]
    rw [eq_comm (a := (s.annotationEditorLayers.set i (some ref)).length)]
    rw [filter_isSome_length_eq_iff]
    constructor
    · exact fun h => h.2
    · intro h
      exact ⟨by omega, h⟩

/-- Witness for C2: a 2-page document whose slot 0 is already filled;
registering slot 1 makes readiness true. -/
theorem registerAnnotationEditorLayer_readiness_witness :
    ((registerAnnotationEditorLayer 1 5
        { pages := [none, none], annotationEditorLayers := [some 4, none],
          annotationEditorUiManager := true,
          canLoadAnnotations := false }).canLoadAnnotations = true
      ↔ ∀ x ∈ (registerAnnotationEditorLayer 1 5
        { pages := [none, none], annotationEditorLayers := [some 4, none],
          annotationEditorUiManager := true,
          canLoadAnnotations := false }).annotationEditorLayers, x.isSome) :=
  (registerAnnotationEditorLayer_readiness
    { pages := [none, none], annotationEditorLayers := [some 4, none],
      annotationEditorUiManager := true, canLoadAnnotations := false }
    2 1 5 rfl rfl (by decide) (by decide) rfl).2

/-! ### Order independence of registration (C3) -/

/-- A registration call arriving from a per-page component. -/
inductive RegOp where
  | page (i : Nat) (ref : Nat)
  | layer (i : Nat) (ref : Nat)
deriving DecidableEq, Repr

def applyOp (s : DocState) (op : RegOp) : DocState :=
  match op with
  | RegOp.page i ref => registerPage i ref s
  | RegOp.layer i ref => registerAnnotationEditorLayer i ref s

def applyOps (s : DocState) (l : List RegOp) : DocState := l.foldl applyOp s

/-- The registration calls of an `N`-page document issued in ascending
index order, pages first then editor layers, with per-index refs. -/
def ascOps (N : Nat) (refP refL : Nat → Nat) : List RegOp :=
  (List.range N).map (fun i => RegOp.page i (refP i))
    ++ (List.range N).map (fun i => RegOp.layer i (refL i))

/-- An op is canonical when it registers an in-range index with the ref
assigned to that index (repeated registrations use the same ref). -/
def Canonical (N : Nat) (refP refL : Nat → Nat) (op : RegOp) : Prop :=
  (∃ i, i < N ∧ op = RegOp.page i (refP i))
    ∨ (∃ i, i < N ∧ op = RegOp.layer i (refL i))

instance (N : Nat) (refP refL : Nat → Nat) (op : RegOp) :
    Decidable (Canonical N refP refL op) := by
  unfold Canonical
  exact inferInstance

theorem applyOp_manager (s : DocState) (op : RegOp) :
    (applyOp s op).annotationEditorUiManager = s.annotationEditorUiManager := by
  cases op <;> rfl

theorem applyOps_manager : ∀ (l : List RegOp) (s : DocState),
    (applyOps s l).annotationEditorUiManager = s.annotationEditorUiManager
  | [], _ => rfl
  | op :: rest, s => by
    rw [applyOps, List.foldl_cons, ← applyOps, applyOps_manager rest, applyOp_manager]

theorem applyOp_lengths {N : Nat} {refP refL : Nat → Nat} {s : DocState} {op : RegOp}
    (hc : Canonical N refP refL op) (hp : s.pages.length = N)
    (hl : s.annotationEditorLayers.length = N) :
    (applyOp s op).pages.length = N
    ∧ (applyOp s op).annotationEditorLayers.length = N := by
  rcases hc with ⟨i, hi, rfl⟩ | ⟨i, hi, rfl⟩
  · refine ⟨?_, hl⟩
    simp [applyOp, registerPage, jsArraySet_inrange _ _ _ (hp ▸ hi), hp]
  · refine ⟨hp, ?_⟩
    simp [applyOp, registerAnnotationEditorLayer,
      jsArraySet_inrange _ _ _ (hl ▸ hi), hl]

theorem applyOps_lengths {N : Nat} {refP refL : Nat → Nat} :
    ∀ {l : List RegOp} {s : DocState},
    (∀ op ∈ l, Canonical N refP refL op) → s.pages.length = N →
    s.annotationEditorLayers.length = N →
    (applyOps s l).pages.length = N
    ∧ (applyOps s l).annotationEditorLayers.length = N
  | [], s, _, hp, hl => ⟨hp, hl⟩
  | op :: rest, s, hc, hp, hl => by
    rw [applyOps, List.foldl_cons, ← applyOps]
    obtain ⟨h1, h2⟩ := applyOp_lengths (hc op (List.mem_cons_self op rest)) hp hl
    exact applyOps_lengths (fun o ho => hc o (List.mem_cons_of_mem op ho)) h1 h2

theorem applyOps_pages_getElem {N : Nat} {refP refL : Nat → Nat} :
    ∀ {l : List RegOp} {s : DocState},
    (∀ op ∈ l, Canonical N refP refL op) → s.pages.length = N →
    s.annotationEditorLayers.length = N → ∀ j, j < N →
    (applyOps s l).pages[j]?
      = if RegOp.page j (refP j) ∈ l then some (some (refP j)) else s.pages[j]?
  | [], s, _, _, _, j, _ => by simp [applyOps]
  | op :: rest, s, hc, hp, hl, j, hj => by
    rw [applyOps, List.foldl_cons, ← applyOps]
    obtain ⟨h1, h2⟩ := applyOp_lengths (hc op (List.mem_cons_self op rest)) hp hl
    have ih := applyOps_pages_getElem
      (fun o ho => hc o (List.mem_cons_of_mem op ho)) h1 h2 j hj
    rcases hc op (List.mem_cons_self op rest) with ⟨i, hi, hop⟩ | ⟨i, hi, hop⟩
    · subst hop
      by_cases hmem : RegOp.page j (refP j) ∈ rest
      · simp [List.mem_cons, hmem, ih]
      · by_cases hij : i = j
        · subst hij
          rw [ih, if_neg hmem, if_pos (List.mem_cons_self _ _)]
          show (registerPage i (refP i) s).pages[i]? = some (some (refP i))
          rw [registerPage]
          simp only [jsArraySet_inrange _ _ _ (hp ▸ hi)]
          exact List.getElem?_set_eq_of_lt _ (hp ▸ hi)
        · have hne1 : ¬(RegOp.page j (refP j) = RegOp.page i (refP i)) := by
            intro hcontra
            injection hcontra with hji _
            exact hij hji.symm
          rw [ih, if_neg hmem,
            if_neg (by
              simp only [List.mem_cons]
              rintro (hcontra | hcontra)
              · exact hne1 hcontra
              · exact hmem hcontra)]
          show (registerPage i (refP i) s).pages[j]? = s.pages[j]?
          rw [registerPage]
          simp only [jsArraySet_inrange _ _ _ (hp ▸ hi)]
          exact List.getElem?_set_ne hij
    · subst hop
      have hpages : (applyOp s (RegOp.layer i (refL i))).pages = s.pages := rfl
      rw [ih, hpages]
      have : (RegOp.page j (refP j) ∈ RegOp.layer i (refL i) :: rest)
          ↔ (RegOp.page j (refP j) ∈ rest) := by
        simp [List.mem_cons]
      rw [if_congr this rfl rfl]

theorem applyOps_layers_getElem {N : Nat} {refP refL : Nat → Nat} :
    ∀ {l : List RegOp} {s : DocState},
    (∀ op ∈ l, Canonical N refP refL op) → s.pages.length = N →
    s.annotationEditorLayers.length = N → ∀ j, j < N →
    (applyOps s l).annotationEditorLayers[j]?
      = if RegOp.layer j (refL j) ∈ l then some (some (refL j))
        else s.annotationEditorLayers[j]?
  | [], s, _, _, _, j, _ => by simp [applyOps]
  | op :: rest, s, hc, hp, hl, j, hj => by
    rw [applyOps, List.foldl_cons, ← applyOps]
    obtain ⟨h1, h2⟩ := applyOp_lengths (hc op (List.mem_cons_self op rest)) hp hl
    have ih := applyOps_layers_getElem
      (fun o ho => hc o (List.mem_cons_of_mem op ho)) h1 h2 j hj
    rcases hc op (List.mem_cons_self op rest) with ⟨i, hi, hop⟩ | ⟨i, hi, hop⟩
    · subst hop
      have hlayers : (applyOp s (RegOp.page i (refP i))).annotationEditorLayers
          = s.annotationEditorLayers := rfl
      rw [ih, hlayers]
      have : (RegOp.layer j (refL j) ∈ RegOp.page i (refP i) :: rest)
          ↔ (RegOp.layer j (refL j) ∈ rest) := by
        simp [List.mem_cons]
      rw [if_congr this rfl rfl]
    · subst hop
      by_cases hmem : RegOp.layer j (refL j) ∈ rest
      · simp [List.mem_cons, hmem, ih]
      · by_cases hij : i = j
        · subst hij
          rw [ih, if_neg hmem, if_pos (List.mem_cons_self _ _)]
          show (registerAnnotationEditorLayer i (refL i) s).annotationEditorLayers[i]?
            = some (some (refL i))
          rw [registerAnnotationEditorLayer]
          simp only [jsArraySet_inrange _ _ _ (hl ▸ hi)]
          exact List.getElem?_set_eq_of_lt _ (hl ▸ hi)
        · have hne1 : ¬(RegOp.layer j (refL j) = RegOp.layer i (refL i)) := by
            intro hcontra
            injection hcontra with hji _
            exact hij hji.symm
          rw [ih, if_neg hmem,
            if_neg (by
              simp only [List.mem_cons]
              rintro (hcontra | hcontra)
              · exact hne1 hcontra
              · exact hmem hcontra)]
          show (registerAnnotationEditorLayer i (refL i) s).annotationEditorLayers[j]?
            = s.annotationEditorLayers[j]?
          rw [registerAnnotationEditorLayer]
          simp only [jsArraySet_inrange _ _ _ (hl ▸ hi)]
          exact List.getElem?_set_ne hij

def RegOp.isLayer : RegOp → Bool
  | RegOp.layer _ _ => true
  | RegOp.page _ _ => false

theorem applyOps_canLoad_pageonly : ∀ (l : List RegOp) (s : DocState),
    (∀ op ∈ l, op.isLayer = false) →
    (applyOps s l).canLoadAnnotations = s.canLoadAnnotations
  | [], _, _ => rfl
  | op :: rest, s, h => by
    rw [applyOps, List.foldl_cons, ← applyOps,
      applyOps_canLoad_pageonly rest _ (fun o ho => h o (List.mem_cons_of_mem op ho))]
    cases op with
    | page i r => rfl
    | layer i r =>
      have := h _ (List.mem_cons_self _ _)
      simp [RegOp.isLayer] at this

/-- Splitting a list of registrations at its last editor-layer call. -/
theorem exists_last_layer : ∀ l : List RegOp, (∃ op ∈ l, op.isLayer = true) →
    ∃ l1 i ref l2, l = l1 ++ RegOp.layer i ref :: l2
      ∧ (∀ op ∈ l2, op.isLayer = false)
  | [], h => by simp at h
  | op :: rest, h => by
    by_cases hrest : ∃ o ∈ rest, o.isLayer = true
    · obtain ⟨l1, i, ref, l2, heq, hnone⟩ := exists_last_layer rest hrest
      exact ⟨op :: l1, i, ref, l2, by rw [heq, List.cons_append], hnone⟩
    · push_neg at hrest
      cases op with
      | layer i ref =>
        refine ⟨[], i, ref, rest, rfl, fun o ho => ?_⟩
        have := hrest o ho
        simpa using this
      | page i ref =>
        obtain ⟨o, ho, hl⟩ := h
        rcases List.mem_cons.mp ho with rfl | ho2
        · simp [RegOp.isLayer] at hl
        · have := hrest o ho2
          simp [hl] at this

theorem applyOps_split (s : DocState) (l1 l2 : List RegOp) (op : RegOp) :
    applyOps s (l1 ++ op :: l2) = applyOps (applyOps s (l1 ++ [op])) l2 := by
  simp [applyOps, List.foldl_append]

/-- After a complete set of canonical registrations containing at least
one editor-layer call, the readiness flag equals the resolution state of
the editing manager. -/
theorem applyOps_canLoad_full {N : Nat} {refP refL : Nat → Nat} (hN : 1 ≤ N)
    (l : List RegOp) (s : DocState)
    (hc : ∀ op ∈ l, Canonical N refP refL op)
    (hcov : ∀ i, i < N → RegOp.layer i (refL i) ∈ l)
    (hp : s.pages.length = N) (hl : s.annotationEditorLayers.length = N) :
    (applyOps s l).canLoadAnnotations = s.annotationEditorUiManager := by
  have hlayer : ∃ op ∈ l, op.isLayer = true :=
    ⟨RegOp.layer 0 (refL 0), hcov 0 (by omega), rfl⟩
  obtain ⟨l1, i, ref, l2, heq, hnolayer⟩ := exists_last_layer l hlayer
  have hmidmem : RegOp.layer i ref ∈ l := by
    rw [heq]; exact List.mem_append_right _ (List.mem_cons_self _ _)
  have hmid := hc _ hmidmem
  have hi : i < N ∧ ref = refL i := by
    rcases hmid with ⟨i2, hi2, heq2⟩ | ⟨i2, hi2, heq2⟩
    · exact absurd heq2 (by intro hx; cases hx)
    · injection heq2 with e1 e2
      subst e1
      exact ⟨hi2, e2⟩
  obtain ⟨hiN, rfl⟩ := hi
  rw [heq, applyOps_split, applyOps_canLoad_pageonly l2 _ hnolayer]
  have hc1 : ∀ op ∈ l1 ++ [RegOp.layer i (refL i)], Canonical N refP refL op := by
    intro o ho
    rcases List.mem_append.mp ho with h1 | h1
    · exact hc o (by rw [heq]; exact List.mem_append_left _ h1)
    · rcases List.mem_singleton.mp h1 with rfl
      exact hc _ hmidmem
  have hcov1 : ∀ j, j < N → RegOp.layer j (refL j) ∈ l1 ++ [RegOp.layer i (refL i)] := by
    intro j hj
    have := hcov j hj
    rw [heq] at this
    rcases List.mem_append.mp this with h1 | h1
    · exact List.mem_append_left _ h1
    · rcases List.mem_cons.mp h1 with h2 | h2
      · rw [h2]
        exact List.mem_append_right _ (List.mem_singleton.mpr rfl)
      · have := hnolayer _ h2
        simp [RegOp.isLayer] at this
  obtain ⟨hpf, hlf⟩ := applyOps_lengths hc1 hp hl
  have hall : ∀ x ∈ (applyOps s (l1 ++ [RegOp.layer i (refL i)])).annotationEditorLayers,
      x.isSome := by
    intro x hx
    obtain ⟨j, hjlt, hjx⟩ := List.mem_iff_getElem.mp hx
    have hjN : j < N := by rw [hlf] at hjlt; exact hjlt
    have := applyOps_layers_getElem hc1 hp hl j hjN
    rw [if_pos (hcov1 j hjN)] at this
    have hx2 : (applyOps s (l1 ++ [RegOp.layer i (refL i)])).annotationEditorLayers[j]?
        = some x := by
      rw [List.getElem?_eq_some_iff]
      exact ⟨hjlt, hjx⟩
    rw [this] at hx2
    cases hx2
    rfl
  -- the last layer op recomputes the flag over a fully populated registry
  have hstep : applyOps s (l1 ++ [RegOp.layer i (refL i)])
      = registerAnnotationEditorLayer i (refL i) (applyOps s l1) := by
    simp [applyOps, List.foldl_append, applyOp]
  have hc0 : ∀ op ∈ l1, Canonical N refP refL op := by
    intro o ho
    exact hc o (by rw [heq]; exact List.mem_append_left _ ho)
  obtain ⟨hp0, hl0⟩ := applyOps_lengths hc0 hp hl
  rw [hstep]
  rw [hstep] at hall hlf
  have hfilter : (((registerAnnotationEditorLayer i (refL i)
      (applyOps s l1)).annotationEditorLayers).filter Option.isSome).length = N := by
    rw [← hlf]
    exact (filter_isSome_length_eq_iff _).mpr hall
  show ((applyOps s l1).annotationEditorUiManager
      && decide (0 < (applyOps s l1).pages.length)
      && decide ((applyOps s l1).pages.length = _)) = s.annotationEditorUiManager
  rw [applyOps_manager]
  have : (registerAnnotationEditorLayer i (refL i)
        (applyOps s l1)).annotationEditorLayers
      = jsArraySet (applyOps s l1).annotationEditorLayers i (some (refL i)) := rfl
  rw [hp0]
  rw [show (decide (0 < N)) = true from by simp; omega]
  rw [show (decide (N = ((jsArraySet (applyOps s l1).annotationEditorLayers i
      (some (refL i))).filter Option.isSome).length)) = true from by
    rw [decide_eq_true_iff]
    exact hfilter.symm]
  simp

theorem DocState.eq_of_parts {s t : DocState} (h1 : s.pages = t.pages)
    (h2 : s.annotationEditorLayers = t.annotationEditorLayers)
    (h3 : s.annotationEditorUiManager = t.annotationEditorUiManager)
    (h4 : s.canLoadAnnotations = t.canLoadAnnotations) : s = t := by
  cases s; cases t
  simp_all

/-- Claim C3: performing the `registerPage` and
`registerAnnotationEditorLayer` calls for all indices `0..N-1` in any
permuted order (repetitions of the same index with the same ref allowed)
yields the same final page registry, editor-surface registry, and
readiness value as performing them in ascending order. -/
theorem registration_order_independence (N : Nat) (refP refL : Nat → Nat)
    (m : Bool) (l : List RegOp)
    (hc : ∀ op ∈ l, Canonical N refP refL op)
    (hcovP : ∀ i, i < N → RegOp.page i (refP i) ∈ l)
    (hcovL : ∀ i, i < N → RegOp.layer i (refL i) ∈ l) :
    applyOps (initDocState N m) l = applyOps (initDocState N m) (ascOps N refP refL) := by
  have hpinit : (initDocState N m).pages.length = N := by simp [initDocState]
  have hlinit : (initDocState N m).annotationEditorLayers.length = N := by
    simp [initDocState]
  have hcAsc : ∀ op ∈ ascOps N refP refL, Canonical N refP refL op := by
    intro op hop
    rcases List.mem_append.mp hop with h | h
    · obtain ⟨i, hiR, rfl⟩ := List.mem_map.mp h
      exact Or.inl ⟨i, List.mem_range.mp hiR, rfl⟩
    · obtain ⟨i, hiR, rfl⟩ := List.mem_map.mp h
      exact Or.inr ⟨i, List.mem_range.mp hiR, rfl⟩
  have hcovPAsc : ∀ i, i < N → RegOp.page i (refP i) ∈ ascOps N refP refL := by
    intro i hi
    exact List.mem_append_left _ (List.mem_map.mpr ⟨i, List.mem_range.mpr hi, rfl⟩)
  have hcovLAsc : ∀ i, i < N → RegOp.layer i (refL i) ∈ ascOps N refP refL := by
    intro i hi
    exact List.mem_append_right _ (List.mem_map.mpr ⟨i, List.mem_range.mpr hi, rfl⟩)
  obtain ⟨hpl, hll⟩ := applyOps_lengths
    hc hpinit hlinit
  obtain ⟨hpa, hla⟩ := applyOps_lengths
    hcAsc hpinit hlinit
  refine DocState.eq_of_parts ?_ ?_ ?_ ?_
  · refine List.ext_getElem? fun j => ?_
    by_cases hj : j < N
    · rw [applyOps_pages_getElem hc hpinit hlinit j hj,
        applyOps_pages_getElem hcAsc hpinit hlinit j hj,
        if_pos (hcovP j hj), if_pos (hcovPAsc j hj)]
    · rw [List.getElem?_eq_none (by omega : (applyOps (initDocState N m) l).pages.length ≤ j),
        List.getElem?_eq_none (by omega :
          (applyOps (initDocState N m) (ascOps N refP refL)).pages.length ≤ j)]
  · refine List.ext_getElem? fun j => ?_
    by_cases hj : j < N
    · rw [applyOps_layers_getElem hc hpinit hlinit j hj,
        applyOps_layers_getElem hcAsc hpinit hlinit j hj,
        if_pos (hcovL j hj), if_pos (hcovLAsc j hj)]
    · rw [List.getElem?_eq_none (by omega :
          (applyOps (initDocState N m) l).annotationEditorLayers.length ≤ j),
        List.getElem?_eq_none (by omega :
          (applyOps (initDocState N m) (ascOps N refP refL)).annotationEditorLayers.length ≤ j)]
  · rw [applyOps_manager, applyOps_manager]
  · by_cases hN : N = 0
    · have hlnil : l = [] := by
        rw [List.eq_nil_iff_forall_not_mem]
        intro op hop
        rcases hc op hop with ⟨i, hi, _⟩ | ⟨i, hi, _⟩ <;> omega
      subst hN
      rw [hlnil]
      simp [ascOps, applyOps]
    · rw [applyOps_canLoad_full (by omega) l _ hc hcovL hpinit hlinit,
        applyOps_canLoad_full (by omega) (ascOps N refP refL) _ hcAsc hcovLAsc hpinit hlinit]

/-- Witness for C3: a 3-page document registered in order [2,0,1]
(with layer 1 registered twice) agrees with ascending order. -/
theorem registration_order_independence_witness :
    applyOps (initDocState 3 true)
        [RegOp.page 2 12, RegOp.layer 2 22, RegOp.page 0 10, RegOp.layer 0 20,
          RegOp.layer 1 21, RegOp.page 1 11, RegOp.layer 1 21]
      = applyOps (initDocState 3 true)
          (ascOps 3 (fun i => 10 + i) (fun i => 20 + i)) :=
  registration_order_independence 3 (fun i => 10 + i) (fun i => 20 + i) true
    [RegOp.page 2 12, RegOp.layer 2 22, RegOp.page 0 10, RegOp.layer 0 20,
      RegOp.layer 1 21, RegOp.page 1 11, RegOp.layer 1 21]
    (by decide) (by decide) (by decide)

/-! ## Source resolution pipeline (Document.tsx: findDocumentSource and
the file-change effects)

A caller-supplied `file` value.  Byte payloads are modelled as opaque
byte strings.  An object parameter carries optional `url`, `data` and
`range` fields (`none` = key absent). -/

inductive JSFile where
  | str (s : String)
  | rangeTransport (id : Nat)
  | arrayBuffer (data : String)
  | blob (data : String)
  | obj (url : Option String) (data : Option String) (range : Option Nat)
deriving DecidableEq, Repr

/-- A canonical source descriptor as returned by `findDocumentSource`. -/
structure Source where
  url : Option String := none
  data : Option String := none
  range : Option Nat := none
deriving DecidableEq, Repr

/-- Observable actions of the source pipeline and the file-change
effects: the unnecessary-invalidation advisory (the `warning` fired when
a changed `file` prop is deep-equal to the previous one), the cross-origin
advisory, the resolver dispatches, and the resolved-source success event. -/
inductive SrcAction where
  | advisoryUnmemoized
  | advisoryCORS
  | reset
  | resolveSource (s : Option Source)
  | rejectSource (msg : String)
deriving DecidableEq, Repr

/-- Modelled from the spec: `isDataURI` from shared/utils.js (file not
under src/); a string input is a data URI exactly when it begins with the
"data:" scheme marker. -/
def isDataURI (s : String) : Bool := decide (s.data.take 5 = "data:".data)

/-- Modelled from the spec: `dataURItoByteString` from shared/utils.js
(file not under src/); decodes the payload of a data URI to a byte
string, modelled as the text after the first comma. -/
def dataURItoByteString (s : String) : String :=
  String.mk ((s.data.dropWhile (fun c => c ≠ ',')).drop 1)

/-- `isParameterObject(file)`: `typeof file === 'object' && file !== null
&& ('data' in file || 'range' in file || 'url' in file)`. -/
def isParameterObject : JSFile → Bool
  | JSFile.obj u d r => u.isSome || d.isSome || r.isSome
  | _ => false

/-- `findDocumentSource`, returning the resolved source (or an `Except`
error for the invariant failure) together with the advisories emitted on
the way.  `corsMismatch s` is modelled from the spec: the
`displayCORSWarning` helper of shared/utils.js (not under src/) emits its
advisory exactly when the scheme of the host environment differs from the
host origin conventions for the given input. -/
def findDocumentSource (corsMismatch : String → Bool) (isBrowser : Bool)
    (file : Option JSFile) : Except String (Option Source × List SrcAction) :=
  match file with
  | none => Except.ok (none, [])
  | some (JSFile.str s) =>
    if isDataURI s then Except.ok (some { data := some (dataURItoByteString s) }, [])
    else Except.ok (some { url := some s },
      if corsMismatch s then [SrcAction.advisoryCORS] else [])
  | some (JSFile.rangeTransport r) => Except.ok (some { range := some r }, [])
  | some (JSFile.arrayBuffer d) => Except.ok (some { data := some d }, [])
  | some (JSFile.blob d) =>
    if isBrowser then Except.ok (some { data := some d }, [])
    else Except.error "Invalid parameter object: need either .data, .range or .url"
  | some (JSFile.obj u d r) =>
    if u.isSome || d.isSome || r.isSome then
      match u with
      | some url =>
        if isDataURI url then
          -- spread of otherParams after the decoded data: an existing
          -- data field of the object wins over the decoded payload
          Except.ok
            (some { url := none, data := some (d.getD (dataURItoByteString url)), range := r },
              [])
        else
          Except.ok
            (some { url := u, data := d, range := r },
              if corsMismatch url then [SrcAction.advisoryCORS] else [])
      | none => Except.ok (some { url := none, data := d, range := r }, [])
    else Except.error "Invalid parameter object: need either .data, .range or .url"

/-- A `file` prop value together with its JS object identity (two
distinct objects with equal contents have distinct ids; `===` on strings
compares contents). -/
structure FileRef where
  id : Nat
  file : JSFile
deriving DecidableEq, Repr

/-- JS `===` between two `file` prop values. -/
def sameIdentity (a b : FileRef) : Bool :=
  match a.file, b.file with
  | JSFile.str s, JSFile.str t => decide (s = t)
  | _, _ => decide (a.id = b.id)

/-- Actions of the source-resolution effect: the advisories emitted while
resolving, then the RESOLVE (or REJECT) dispatch, which is the
resolved-source event delivered to the host. -/
def sourceEffectActions (corsMismatch : String → Bool) (isBrowser : Bool)
    (file : Option JSFile) : List SrcAction :=
  match findDocumentSource corsMismatch isBrowser file with
  | Except.ok (src, adv) => adv ++ [SrcAction.resolveSource src]
  | Except.error e => [SrcAction.rejectSource e]

/-- The effects run when the `file` prop changes, in declaration order:
the unmemoized-file warning effect (fires its advisory when the changed
file is a parameter object deep-equal to the previous one), the
`resetSource` effect, and the source-resolution effect.  When the new
value is `===` to the previous one the dependencies are unchanged and no
effect runs. -/
def onFileChange (corsMismatch : String → Bool) (isBrowser : Bool)
    (prev : FileRef) (file : FileRef) : List SrcAction :=
  if sameIdentity file prev then []
  else
    (if isParameterObject file.file && decide (file.file = prev.file)
      then [SrcAction.advisoryUnmemoized] else [])
    ++ [SrcAction.reset]
    ++ sourceEffectActions corsMismatch isBrowser (some file.file)

/-- Counterexample for claim C4: replacing the parameter object A by a
new, deep-equal object B does produce a new resolved-source event — the
trace contains a RESOLVE dispatch after the advisory, because change
detection is identity-based. -/
theorem deep_equal_replacement_counterexample :
    onFileChange (fun _ => false) true
        ⟨0, JSFile.obj (some "u") none none⟩ ⟨1, JSFile.obj (some "u") none none⟩
      = [SrcAction.advisoryUnmemoized, SrcAction.reset,
          SrcAction.resolveSource (some { url := some "u", data := none, range := none })]
    ∧ SrcAction.resolveSource (some { url := some "u", data := none, range := none })
        ∈ onFileChange (fun _ => false) true
          ⟨0, JSFile.obj (some "u") none none⟩ ⟨1, JSFile.obj (some "u") none none⟩ := by
  constructor
  · decide
  · decide

/-- Claim C4 as amended: replacing a parameter object A by a new,
deep-equal object B emits the unnecessary-invalidation advisory, and —
because change detection is identity-based — also resets and re-resolves
the source, producing a new resolved-source event. -/
theorem deep_equal_replacement_advisory_and_reload (corsMismatch : String → Bool)
    (isBrowser : Bool) (A B : FileRef)
    (hid : sameIdentity B A = false)
    (hparam : isParameterObject B.file = true)
    (heq : B.file = A.file) :
    SrcAction.advisoryUnmemoized ∈ onFileChange corsMismatch isBrowser A B
    ∧ SrcAction.reset ∈ onFileChange corsMismatch isBrowser A B
    ∧ ∀ src adv, findDocumentSource corsMismatch isBrowser (some B.file)
        = Except.ok (src, adv) →
        SrcAction.resolveSource src ∈ onFileChange corsMismatch isBrowser A B := by
  have hcond : (isParameterObject B.file && decide (B.file = A.file)) = true := by
    rw [hparam, heq]
    simp
  refine ⟨?_, ?_, ?_⟩
  · simp [onFileChange, hid, hcond]
  · simp [onFileChange, hid, hcond]
  · intro src adv hres
    simp [onFileChange, hid, hcond, sourceEffectActions, hres]

theorem deep_equal_replacement_witness :
    SrcAction.advisoryUnmemoized
      ∈ onFileChange (fun _ => false) true
          ⟨0, JSFile.obj (some "u") none none⟩ ⟨1, JSFile.obj (some "u") none none⟩ :=
  (deep_equal_replacement_advisory_and_reload (fun _ => false) true
    ⟨0, JSFile.obj (some "u") none none⟩ ⟨1, JSFile.obj (some "u") none none⟩
    (by decide) (by decide) (by decide)).1

/-- Claim C6: a string input that is not a data URI resolves to
`{url: input}`; no advisory is emitted when the scheme agrees with the
host origin conventions.  In particular this holds for
"https://host/sample.pdf" on an https host. -/
theorem plain_url_resolution (corsMismatch : String → Bool) (isBrowser : Bool)
    (s : String) (hdata : isDataURI s = false) (hcors : corsMismatch s = false) :
    findDocumentSource corsMismatch isBrowser (some (JSFile.str s))
      = Except.ok (some { url := some s, data := none, range := none }, []) := by
  simp [findDocumentSource, hdata, hcors]

theorem plain_url_resolution_witness :
    findDocumentSource (fun _ => false) true
        (some (JSFile.str "https://host/sample.pdf"))
      = Except.ok
          (some { url := some "https://host/sample.pdf", data := none, range := none },
            []) :=
  plain_url_resolution (fun _ => false) true "https://host/sample.pdf"
    (by decide) rfl

/-! ## Document load settlement (Document.tsx: loadDocument) -/

/-- Modelled from the spec: the ResolveState container of
shared/hooks/useResolver.js (file not under src/): a tagged variant with
transitions RESET to Absent, RESOLVE to Resolved, REJECT to Rejected. -/
inductive ResolveState (T : Type) where
  | absent
  | resolved (value : T)
  | rejected (err : String)
deriving DecidableEq, Repr

inductive ResolveAction (T : Type) where
  | reset
  | resolve (value : T)
  | reject (err : String)
deriving DecidableEq, Repr

def resolveReduce {T : Type} (_st : ResolveState T) : ResolveAction T → ResolveState T
  | ResolveAction.reset => ResolveState.absent
  | ResolveAction.resolve v => ResolveState.resolved v
  | ResolveAction.reject e => ResolveState.rejected e

/-- The eventual settlement of a pdfjs `loadingTask.promise`. -/
inductive LoadSettlement where
  | success (pdf : Nat)
  | failure (err : String)
deriving DecidableEq, Repr

/-- The promise handlers installed by `loadDocument`: on fulfilment
dispatch RESOLVE with the pdf; on rejection, return without dispatching
when `loadingTask.destroyed` is set, otherwise dispatch REJECT. -/
def settlementActions (destroyed : Bool) (s : LoadSettlement) :
    List (ResolveAction Nat) :=
  match s with
  | LoadSettlement.success pdf => [ResolveAction.resolve pdf]
  | LoadSettlement.failure err =>
    if destroyed then [] else [ResolveAction.reject err]

def applyResolveActions {T : Type} (st : ResolveState T)
    (acts : List (ResolveAction T)) : ResolveState T :=
  acts.foldl resolveReduce st

/-- Claim C5: the settlement of a destroyed (superseded or unmounted)
loading task is never applied to the document resolver state: it
dispatches no REJECT (so no document failure reaches the host) and leaves
any resolver state — in particular that of a newer source generation —
unchanged.  The hypothesis is the engine contract that a task destroyed
while in flight settles as a rejection, never as a fulfilment. -/
theorem destroyed_load_never_applied (s : LoadSettlement) (st : ResolveState Nat)
    (hengine : ∀ pdf, s ≠ LoadSettlement.success pdf) :
    settlementActions true s = []
    ∧ (∀ e, ResolveAction.reject e ∉ settlementActions true s)
    ∧ applyResolveActions st (settlementActions true s) = st := by
  match s with
  | LoadSettlement.success pdf => exact absurd rfl (hengine pdf)
  | LoadSettlement.failure err =>
    refine ⟨rfl, ?_, rfl⟩
    intro e
    simp [settlementActions]

theorem destroyed_load_never_applied_witness :
    settlementActions true (LoadSettlement.failure "cancelled") = []
    ∧ applyResolveActions (ResolveState.resolved 42)
        (settlementActions true (LoadSettlement.failure "cancelled"))
      = ResolveState.resolved 42 :=
  ⟨(destroyed_load_never_applied (LoadSettlement.failure "cancelled")
      (ResolveState.resolved 42) (fun pdf h => by cases h)).1,
    (destroyed_load_never_applied (LoadSettlement.failure "cancelled")
      (ResolveState.resolved 42) (fun pdf h => by cases h)).2.2⟩

/-! ## Download / save coordinators (Document.tsx: enableDownload) -/

/-- Observable events of the download/save closures: calling
`pdf.saveDocument()`, calling `pdf.getData()`, handing a blob or a URL to
the download manager, logging an error, and surfacing an error callback
to the host (which never happens on these paths). -/
inductive SaveEvent where
  | saveDoc
  | getData
  | downloadBlob (url : String) (filename : String)
  | downloadUrl (url : String) (filename : String)
  | logError (msg : String)
  | hostError (msg : String)
deriving DecidableEq, Repr

/-- The `download` closure: fetch raw bytes via `pdf.getData()` and hand
the blob to the download manager; if that throws, fall back to
`downloadManager.downloadUrl`. -/
def download (getDataResult : Except String String) (url filename : String) :
    List SaveEvent :=
  SaveEvent.getData ::
    (match getDataResult with
     | Except.ok _ => [SaveEvent.downloadBlob url filename]
     | Except.error _ => [SaveEvent.downloadUrl url filename])

/-- The `saveWithAnnotations` closure: a no-op while a save is already in
progress; otherwise attempt `pdf.saveDocument()` and hand the blob to the
download manager, and on failure log the error and fall back to the plain
`download` path with the same url and filename. -/
def saveWithAnnotations (isSaveInProgress : Bool)
    (saveDocumentResult getDataResult : Except String String)
    (url filename : String) : List SaveEvent :=
  if isSaveInProgress then []
  else
    SaveEvent.saveDoc ::
      (match saveDocumentResult with
       | Except.ok _ => [SaveEvent.downloadBlob url filename]
       | Except.error reason =>
         SaveEvent.logError reason :: download getDataResult url filename)

/-- The `downloadWithAnnotations` command handed to the host: take the
edit-aware save path when `pdf.annotationStorage.size > 0`, the plain
download path otherwise. -/
def downloadWithAnnotations (annotationStorageSize : Nat) (isSaveInProgress : Bool)
    (saveDocumentResult getDataResult : Except String String)
    (url filename : String) : List SaveEvent :=
  if annotationStorageSize > 0 then
    saveWithAnnotations isSaveInProgress saveDocumentResult getDataResult url filename
  else download getDataResult url filename

/-- Claim C7: when the edit-aware save throws, the failure is logged and
the plain download fallback runs with the same url and filename; no error
callback is surfaced to the host. -/
theorem save_failure_falls_back_to_download (reason : String)
    (getDataResult : Except String String) (url filename : String) :
    saveWithAnnotations false (Except.error reason) getDataResult url filename
      = SaveEvent.saveDoc :: SaveEvent.logError reason
          :: download getDataResult url filename
    ∧ (SaveEvent.downloadBlob url filename
          ∈ saveWithAnnotations false (Except.error reason) getDataResult url filename
        ∨ SaveEvent.downloadUrl url filename
          ∈ saveWithAnnotations false (Except.error reason) getDataResult url filename)
    ∧ ∀ m, SaveEvent.hostError m
        ∉ saveWithAnnotations false (Except.error reason) getDataResult url filename := by
  refine ⟨rfl, ?_, ?_⟩
  · match getDataResult with
    | Except.ok d => left; simp [saveWithAnnotations, download]
    | Except.error e => right; simp [saveWithAnnotations, download]
  · intro m
    match getDataResult with
    | Except.ok d => simp [saveWithAnnotations, download]
    | Except.error e => simp [saveWithAnnotations, download]

/-! ### Save coalescing (C9) -/

/-- The save-in-progress guard state: the React flag plus the number of
edit-aware saves currently in flight. -/
structure SaveState where
  isSaveInProgress : Bool
  inFlight : Nat
deriving DecidableEq, Repr

inductive SaveOp where
  | request
  | complete
deriving DecidableEq, Repr

/-- One step of the guard protocol: a request is ignored while the flag
is set (`if (isSaveInProgress) return`), otherwise it sets the flag and
starts a save; a completion (the `finally` block) clears the flag. -/
def saveStep (s : SaveState) : SaveOp → SaveState
  | SaveOp.request =>
    if s.isSaveInProgress then s
    else { isSaveInProgress := true, inFlight := s.inFlight + 1 }
  | SaveOp.complete =>
    if s.inFlight = 0 then s
    else { isSaveInProgress := false, inFlight := s.inFlight - 1 }

def initSaveState : SaveState := { isSaveInProgress := false, inFlight := 0 }

theorem saveStep_invariant (s : SaveState) (op : SaveOp)
    (h1 : s.isSaveInProgress = decide (s.inFlight ≠ 0)) (h2 : s.inFlight ≤ 1) :
    (saveStep s op).isSaveInProgress = decide ((saveStep s op).inFlight ≠ 0)
    ∧ (saveStep s op).inFlight ≤ 1 := by
  match op with
  | SaveOp.request =>
    rw [saveStep]
    by_cases hp : s.isSaveInProgress = true
    · rw [if_pos hp]
      exact ⟨h1, h2⟩
    · have hz : s.inFlight = 0 := by
        rw [Bool.not_eq_true] at hp
        rw [hp] at h1
        simpa using h1.symm
      rw [if_neg hp]
      simp [hz]
  | SaveOp.complete =>
    rw [saveStep]
    by_cases hz : s.inFlight = 0
    · rw [if_pos hz]
      exact ⟨h1, h2⟩
    · rw [if_neg hz]
      simp only
      constructor
      · simp
        omega
      · omega

theorem saveSteps_at_most_one : ∀ (ops : List SaveOp) (s : SaveState),
    s.isSaveInProgress = decide (s.inFlight ≠ 0) → s.inFlight ≤ 1 →
    (ops.foldl saveStep s).inFlight ≤ 1
  | [], _, _, h2 => h2
  | op :: rest, s, h1, h2 => by
    rw [List.foldl_cons]
    obtain ⟨g1, g2⟩ := saveStep_invariant s op h1 h2
    exact saveSteps_at_most_one rest _ g1 g2

/-- Claim C9: a second save request issued while one is in flight is a
no-op (the closure returns immediately, producing no events), and under
the guard protocol the number of edit-aware saves in flight never exceeds
one. -/
theorem concurrent_saves_coalesced :
    (∀ (saveDocumentResult getDataResult : Except String String) (url filename : String),
      saveWithAnnotations true saveDocumentResult getDataResult url filename = [])
    ∧ (∀ ops : List SaveOp, (ops.foldl saveStep initSaveState).inFlight ≤ 1) := by
  constructor
  · intro sr gr url fn
    rfl
  · intro ops
    exact saveSteps_at_most_one ops initSaveState (by decide) (by decide)

/-- Claim C10: the host-exposed `downloadWithAnnotations` command takes
the edit-aware save path exactly when the edit-storage size is positive,
and the plain byte-download path otherwise; the first event of the trace
identifies the path taken (`saveDoc` versus `getData`). -/
theorem download_with_annotations_dispatch (size : Nat) (isSaveInProgress : Bool)
    (saveDocumentResult getDataResult : Except String String) (url filename : String) :
    (0 < size →
      downloadWithAnnotations size isSaveInProgress saveDocumentResult getDataResult url filename
        = saveWithAnnotations isSaveInProgress saveDocumentResult getDataResult url filename)
    ∧ (size = 0 →
      downloadWithAnnotations size isSaveInProgress saveDocumentResult getDataResult url filename
        = download getDataResult url filename)
    ∧ (0 < size → isSaveInProgress = false →
      (downloadWithAnnotations size isSaveInProgress saveDocumentResult getDataResult
          url filename).head? = some SaveEvent.saveDoc)
    ∧ (size = 0 →
      (downloadWithAnnotations size isSaveInProgress saveDocumentResult getDataResult
          url filename).head? = some SaveEvent.getData) := by
  refine ⟨?_, ?_, ?_, ?_⟩
  · intro h
    rw [downloadWithAnnotations, if_pos h]
  · intro h
    rw [downloadWithAnnotations, if_neg (by omega)]
  · intro h hp
    rw [downloadWithAnnotations, if_pos h, hp]
    match saveDocumentResult with
    | Except.ok d => rfl
    | Except.error e => rfl
  · intro h
    rw [downloadWithAnnotations, if_neg (by omega)]
    rfl

theorem download_with_annotations_dispatch_witness :
    (downloadWithAnnotations 2 false (Except.ok "bytes") (Except.ok "raw")
        "annotated.pdf" "annotated.pdf").head? = some SaveEvent.saveDoc
    ∧ (downloadWithAnnotations 0 false (Except.ok "bytes") (Except.ok "raw")
        "annotated.pdf" "annotated.pdf").head? = some SaveEvent.getData :=
  ⟨(download_with_annotations_dispatch 2 false (Except.ok "bytes") (Except.ok "raw")
      "annotated.pdf" "annotated.pdf").2.2.1 (by omega) rfl,
    (download_with_annotations_dispatch 0 false (Except.ok "bytes") (Except.ok "raw")
      "annotated.pdf" "annotated.pdf").2.2.2 rfl⟩

end ReactPdf
